import Mathlib

/-!
Shallow embedding of the yaht repository's authoritative game engine
(crates/yaht-common: scoring.rs, dice.rs, player.rs, game.rs; and
crates/yaht-server: room.rs), together with theorems checking the
natural-language specification against it.

Machine integers (u8/u16/usize) are modelled as `Nat`: all quantities
involved (die faces 1..6, scores ≤ 50, totals < 2000, list lengths ≤ 6)
are far below every relevant overflow bound.  Uuid is modelled as `Nat`.
Randomness (`rand::Rng`) is modelled as an explicit stream of naturals
with a cursor; `gen_range(1..=6)` reads the next stream element reduced
into 1..6.  Fallible Rust functions returning `Result` are embedded as
`Except`; functions taking `&mut self` additionally return the updated
state.
-/

namespace Yaht

/-- The 13 scoring categories (scoring.rs, `enum Category`). -/
inductive Category where
  | Ones | Twos | Threes | Fours | Fives | Sixes
  | ThreeOfAKind | FourOfAKind | FullHouse
  | SmallStraight | LargeStraight | Yahtzee | Chance
deriving DecidableEq, Repr

/-- `Category::ALL` (scoring.rs). -/
def Category.ALL : List Category :=
  [.Ones, .Twos, .Threes, .Fours, .Fives, .Sixes,
   .ThreeOfAKind, .FourOfAKind, .FullHouse,
   .SmallStraight, .LargeStraight, .Yahtzee, .Chance]

/-- `Category::UPPER` (scoring.rs). -/
def Category.UPPER : List Category :=
  [.Ones, .Twos, .Threes, .Fours, .Fives, .Sixes]

/-- `Category::is_upper` (scoring.rs). -/
def Category.is_upper : Category → Bool
  | .Ones | .Twos | .Threes | .Fours | .Fives | .Sixes => true
  | _ => false

def UPPER_BONUS_THRESHOLD : Nat := 63
def UPPER_BONUS_VALUE : Nat := 35
def YAHTZEE_BONUS_VALUE : Nat := 100

/-- `count_value` (scoring.rs): dice equal to `val`, times `val`.
A `[u8; 5]` dice-value array is embedded as a `List Nat`. -/
def count_value (dice : List Nat) (val : Nat) : Nat :=
  (dice.filter (fun d => d == val)).length * val

/-- `sum` (scoring.rs): sum of all dice. -/
def sumDice (dice : List Nat) : Nat := dice.sum

/-- `value_counts` (scoring.rs) builds an array where entry `i` (0..6)
counts the dice equal to `i`; embedded as `List.count` evaluated at the
indices 0..6 by the callers below. -/
def value_counts (dice : List Nat) (i : Nat) : Nat := dice.count i

/-- `has_n_of_a_kind` (scoring.rs): any of the 7 count entries ≥ n. -/
def has_n_of_a_kind (dice : List Nat) (n : Nat) : Bool :=
  (List.range 7).any (fun i => n ≤ value_counts dice i)

/-- `is_full_house` (scoring.rs): some count exactly 3 and some exactly 2. -/
def is_full_house (dice : List Nat) : Bool :=
  ((List.range 7).any (fun i => value_counts dice i == 3)) &&
  ((List.range 7).any (fun i => value_counts dice i == 2))

/-- `has_small_straight` (scoring.rs). -/
def has_small_straight (dice : List Nat) : Bool :=
  (List.range' 1 3).any (fun start =>
    (List.range' start 4).all (fun i => 1 ≤ value_counts dice i))

/-- `has_large_straight` (scoring.rs). -/
def has_large_straight (dice : List Nat) : Bool :=
  (List.range' 1 2).any (fun start =>
    (List.range' start 5).all (fun i => 1 ≤ value_counts dice i))

/-- `is_yahtzee` (scoring.rs). -/
def is_yahtzee (dice : List Nat) : Bool := has_n_of_a_kind dice 5

/-- `compute_score` (scoring.rs). -/
def compute_score (category : Category) (dice : List Nat) : Nat :=
  match category with
  | .Ones => count_value dice 1
  | .Twos => count_value dice 2
  | .Threes => count_value dice 3
  | .Fours => count_value dice 4
  | .Fives => count_value dice 5
  | .Sixes => count_value dice 6
  | .ThreeOfAKind => if has_n_of_a_kind dice 3 then sumDice dice else 0
  | .FourOfAKind => if has_n_of_a_kind dice 4 then sumDice dice else 0
  | .FullHouse => if is_full_house dice then 25 else 0
  | .SmallStraight => if has_small_straight dice then 30 else 0
  | .LargeStraight => if has_large_straight dice then 40 else 0
  | .Yahtzee => if is_yahtzee dice then 50 else 0
  | .Chance => sumDice dice

/-- Transcription of the scoring rules as the specification §4.1 words
them (NOT taken from the source): used to compare `compute_score`
against the spec.  Upper categories: "sum of all dice equal to that
face value". -/
def ruleUpper (dice : List Nat) (face : Nat) : Nat :=
  (dice.filter (fun d => d == face)).sum

/-- Spec §4.1 wording: "at least N dice share one face value". -/
def ruleHasN (dice : List Nat) (n : Nat) : Bool :=
  dice.any (fun v => n ≤ dice.count v)

/-- Spec §4.1 wording: "some face appears exactly 3 times AND a
different face appears exactly 2 times". -/
def ruleFullHouse (dice : List Nat) : Bool :=
  dice.any (fun v => (dice.count v == 3) &&
    dice.any (fun w => (w != v) && (dice.count w == 2)))

/-- Spec §4.1 wording: "any 4-length consecutive run (1-4, 2-5, or 3-6)
is fully present among distinct values". -/
def ruleSmallStraight (dice : List Nat) : Bool :=
  ([1, 2, 3, 4].all (fun i => dice.contains i)) ||
  ([2, 3, 4, 5].all (fun i => dice.contains i)) ||
  ([3, 4, 5, 6].all (fun i => dice.contains i))

/-- Spec §4.1 wording: "a 5-length consecutive run (1-5 or 2-6) is
fully present". -/
def ruleLargeStraight (dice : List Nat) : Bool :=
  ([1, 2, 3, 4, 5].all (fun i => dice.contains i)) ||
  ([2, 3, 4, 5, 6].all (fun i => dice.contains i))

/-- Spec §4.1 wording: "all five dice share one face value". -/
def ruleYahtzee (dice : List Nat) : Bool :=
  dice.all (fun d => d == dice.headD 0)

/-- The §4.1 scoring table, assembled from the rule transcriptions. -/
def ruleScore (category : Category) (dice : List Nat) : Nat :=
  match category with
  | .Ones => ruleUpper dice 1
  | .Twos => ruleUpper dice 2
  | .Threes => ruleUpper dice 3
  | .Fours => ruleUpper dice 4
  | .Fives => ruleUpper dice 5
  | .Sixes => ruleUpper dice 6
  | .ThreeOfAKind => if ruleHasN dice 3 then dice.sum else 0
  | .FourOfAKind => if ruleHasN dice 4 then dice.sum else 0
  | .FullHouse => if ruleFullHouse dice then 25 else 0
  | .SmallStraight => if ruleSmallStraight dice then 30 else 0
  | .LargeStraight => if ruleLargeStraight dice then 40 else 0
  | .Yahtzee => if ruleYahtzee dice then 50 else 0
  | .Chance => dice.sum

/-- Two booleans are equal when their truth conditions agree. -/
theorem bool_ext {a b : Bool} (h : a = true ↔ b = true) : a = b := by
  cases a <;> cases b <;> simp_all

/-- Summing the dice equal to `v` is the same as counting them and
multiplying by `v`. -/
theorem filter_sum_eq_length_mul (l : List Nat) (v : Nat) :
    (l.filter (fun d => d == v)).sum = (l.filter (fun d => d == v)).length * v := by
  induction l with
  | nil => simp
  | cons a t ih =>
    by_cases h : a = v
    · subst h
      simp [List.filter_cons, ih]
      ring
    · simp [List.filter_cons, h, ih]

/-- The count-array n-of-a-kind test agrees with the "some face shared
by at least n dice" wording, for positive n and in-range dice. -/
theorem has_n_of_a_kind_eq_rule (dice : List Nat) (n : Nat) (hn : 0 < n)
    (hle : ∀ d ∈ dice, d ≤ 6) :
    has_n_of_a_kind dice n = ruleHasN dice n := by
  apply bool_ext
  simp only [has_n_of_a_kind, ruleHasN, value_counts, List.any_eq_true,
    decide_eq_true_eq, List.mem_range]
  constructor
  · rintro ⟨i, _, hcount⟩
    exact ⟨i, List.count_pos_iff.mp (Nat.lt_of_lt_of_le hn hcount), hcount⟩
  · rintro ⟨v, hv, hcount⟩
    exact ⟨v, by have := hle v hv; omega, hcount⟩

/-- The count-array full-house test agrees with the "exactly 3 of one
face and exactly 2 of a different face" wording for in-range dice. -/
theorem is_full_house_eq_rule (dice : List Nat) (hle : ∀ d ∈ dice, d ≤ 6) :
    is_full_house dice = ruleFullHouse dice := by
  apply bool_ext
  simp only [is_full_house, ruleFullHouse, value_counts, List.any_eq_true,
    Bool.and_eq_true, beq_iff_eq, bne_iff_ne, List.mem_range]
  constructor
  · rintro ⟨⟨i, _, hi⟩, ⟨j, _, hj⟩⟩
    refine ⟨i, List.count_pos_iff.mp (by omega), hi,
      j, List.count_pos_iff.mp (by omega), ?_, hj⟩
    intro hji
    rw [hji] at hj
    omega
  · rintro ⟨v, hv, hv3, w, hw, _, hw2⟩
    exact ⟨⟨v, by have := hle v hv; omega, hv3⟩,
           ⟨w, by have := hle w hw; omega, hw2⟩⟩

/-- Membership restated through positive count, in the `1 ≤` form the
embedded straight checks use. -/
theorem one_le_count_iff (dice : List Nat) (i : Nat) :
    1 ≤ dice.count i ↔ i ∈ dice :=
  ⟨fun h => List.count_pos_iff.mp h, fun h => List.count_pos_iff.mpr h⟩

/-- The count-array small-straight test agrees with the "4-length run
present" wording. -/
theorem has_small_straight_eq_rule (dice : List Nat) :
    has_small_straight dice = ruleSmallStraight dice := by
  apply bool_ext
  have h3 : List.range' 1 3 = [1, 2, 3] := rfl
  have r1 : List.range' 1 4 = [1, 2, 3, 4] := rfl
  have r2 : List.range' 2 4 = [2, 3, 4, 5] := rfl
  have r3 : List.range' 3 4 = [3, 4, 5, 6] := rfl
  simp only [has_small_straight, ruleSmallStraight, value_counts, h3, r1, r2, r3,
    List.any_cons, List.any_nil, List.all_cons, List.all_nil, List.contains,
    List.elem_eq_mem, Bool.or_eq_true, Bool.and_eq_true, decide_eq_true_eq,
    one_le_count_iff]
  tauto

/-- The count-array large-straight test agrees with the "5-length run
present" wording. -/
theorem has_large_straight_eq_rule (dice : List Nat) :
    has_large_straight dice = ruleLargeStraight dice := by
  apply bool_ext
  have h2 : List.range' 1 2 = [1, 2] := rfl
  have r1 : List.range' 1 5 = [1, 2, 3, 4, 5] := rfl
  have r2 : List.range' 2 5 = [2, 3, 4, 5, 6] := rfl
  simp only [has_large_straight, ruleLargeStraight, value_counts, h2, r1, r2,
    List.any_cons, List.any_nil, List.all_cons, List.all_nil, List.contains,
    List.elem_eq_mem, Bool.or_eq_true, Bool.and_eq_true, decide_eq_true_eq,
    one_le_count_iff]
  tauto

/-- The five-of-a-kind test agrees with the "all five dice share one
face" wording for five in-range dice. -/
theorem is_yahtzee_eq_rule (dice : List Nat) (h5 : dice.length = 5)
    (hle : ∀ d ∈ dice, d ≤ 6) :
    is_yahtzee dice = ruleYahtzee dice := by
  apply bool_ext
  simp only [is_yahtzee, has_n_of_a_kind, ruleYahtzee, value_counts,
    List.any_eq_true, List.all_eq_true, decide_eq_true_eq, beq_iff_eq,
    List.mem_range]
  constructor
  · rintro ⟨i, _, hcount⟩
    have hle' := List.count_le_length i dice
    have heq : dice.count i = dice.length := by omega
    have hall := List.count_eq_length.mp heq
    intro d hd
    obtain ⟨h, t, rfl⟩ : ∃ h t, dice = h :: t := by
      cases dice with
      | nil => simp at h5
      | cons h t => exact ⟨h, t, rfl⟩
    have hih : i = h := hall h (by simp)
    have hid : i = d := hall d hd
    simp [← hih, ← hid]
  · intro hall
    obtain ⟨h, t, rfl⟩ : ∃ h t, dice = h :: t := by
      cases dice with
      | nil => simp at h5
      | cons h t => exact ⟨h, t, rfl⟩
    refine ⟨h, by have := hle h (by simp); omega, ?_⟩
    have : (h :: t).count h = (h :: t).length :=
      List.count_eq_length.mpr (fun b hb => (hall b hb).symm)
    omega

end Yaht

namespace Yaht

/-- Claim C1: for every array of five dice values each in 1..6 and every
category, `compute_score` returns exactly the value prescribed by the
rules of spec §4.1 (upper face sums; 3/4-of-a-kind; Full House 25 with
a distinct pair so five-of-a-kind scores 0; Small/Large Straight 30/40;
Yahtzee 50; Chance unconditional sum). -/
theorem compute_score_matches_rules (cat : Category) (dice : List Nat)
    (h5 : dice.length = 5) (hrange : ∀ d ∈ dice, 1 ≤ d ∧ d ≤ 6) :
    compute_score cat dice = ruleScore cat dice := by
  have hle : ∀ d ∈ dice, d ≤ 6 := fun d hd => (hrange d hd).2
  cases cat <;>
    simp only [compute_score, ruleScore, count_value, ruleUpper, sumDice,
      filter_sum_eq_length_mul,
      has_n_of_a_kind_eq_rule dice 3 (by omega) hle,
      has_n_of_a_kind_eq_rule dice 4 (by omega) hle,
      is_full_house_eq_rule dice hle,
      has_small_straight_eq_rule dice,
      has_large_straight_eq_rule dice,
      is_yahtzee_eq_rule dice h5 hle]

/-- Concrete instantiation of the C1 theorem: a full house scored on
[2, 2, 3, 3, 3]. -/
theorem compute_score_matches_rules_witness :
    ([2, 2, 3, 3, 3] : List Nat).length = 5 ∧
      compute_score .FullHouse [2, 2, 3, 3, 3] = ruleScore .FullHouse [2, 2, 3, 3, 3] :=
  ⟨by decide, compute_score_matches_rules .FullHouse [2, 2, 3, 3, 3] (by decide) (by decide)⟩

end Yaht

namespace Yaht

/-- `MAX_ROLLS` (dice.rs). -/
def MAX_ROLLS : Nat := 3

/-- `Die` (dice.rs): a face value and a held flag. -/
structure Die where
  value : Nat
  held : Bool
deriving DecidableEq, Repr

/-- `Die::new` (dice.rs). -/
def Die.new : Die := ⟨1, false⟩

/-- The `rand::Rng` argument, embedded as a stream of naturals with a
cursor; drawing `gen_range(1..=6)` reads the next element reduced into
1..6 and advances the cursor. -/
structure Rng where
  gen : Nat → Nat
  idx : Nat

/-- One uniform draw in 1..6. -/
def Rng.next (rng : Rng) : Nat × Rng :=
  (1 + rng.gen rng.idx % 6, { rng with idx := rng.idx + 1 })

/-- `Die::roll` (dice.rs): assigns a fresh value in 1..6 if not held,
no-op otherwise. -/
def Die.roll (d : Die) (rng : Rng) : Die × Rng :=
  if d.held then (d, rng)
  else
    let (v, rng') := rng.next
    ({ d with value := v }, rng')

/-- `DiceSet` (dice.rs): exactly five dice. -/
structure DiceSet where
  d0 : Die
  d1 : Die
  d2 : Die
  d3 : Die
  d4 : Die
deriving DecidableEq, Repr

/-- `DiceSet::new` (dice.rs). -/
def DiceSet.new : DiceSet := ⟨Die.new, Die.new, Die.new, Die.new, Die.new⟩

/-- Positional access to the five dice (`self.dice[i]` in Rust). -/
def DiceSet.get (ds : DiceSet) (i : Fin 5) : Die :=
  match i with
  | ⟨0, _⟩ => ds.d0
  | ⟨1, _⟩ => ds.d1
  | ⟨2, _⟩ => ds.d2
  | ⟨3, _⟩ => ds.d3
  | ⟨4, _⟩ => ds.d4

/-- `DiceSet::roll_unheld` (dice.rs): rolls each die in order, threading
the rng (a held die consumes no randomness). -/
def DiceSet.roll_unheld (ds : DiceSet) (rng : Rng) : DiceSet × Rng :=
  let (a, r0) := ds.d0.roll rng
  let (b, r1) := ds.d1.roll r0
  let (c, r2) := ds.d2.roll r1
  let (d, r3) := ds.d3.roll r2
  let (e, r4) := ds.d4.roll r3
  (⟨a, b, c, d, e⟩, r4)

/-- The `[bool; 5]` hold mask of `DiceSet::set_held`. -/
structure HeldMask where
  m0 : Bool
  m1 : Bool
  m2 : Bool
  m3 : Bool
  m4 : Bool
deriving DecidableEq, Repr

/-- `DiceSet::set_held` (dice.rs): copies each mask entry into the
corresponding die's held flag, leaving die values alone. -/
def DiceSet.set_held (ds : DiceSet) (held : HeldMask) : DiceSet :=
  ⟨{ ds.d0 with held := held.m0 },
   { ds.d1 with held := held.m1 },
   { ds.d2 with held := held.m2 },
   { ds.d3 with held := held.m3 },
   { ds.d4 with held := held.m4 }⟩

/-- `DiceSet::release_all` (dice.rs). -/
def DiceSet.release_all (ds : DiceSet) : DiceSet :=
  ⟨{ ds.d0 with held := false },
   { ds.d1 with held := false },
   { ds.d2 with held := false },
   { ds.d3 with held := false },
   { ds.d4 with held := false }⟩

/-- `DiceSet::values` (dice.rs). -/
def DiceSet.values (ds : DiceSet) : List Nat :=
  [ds.d0.value, ds.d1.value, ds.d2.value, ds.d3.value, ds.d4.value]

/-- `TurnPhase` (game.rs). -/
inductive TurnPhase where
  | WaitingForRoll
  | Rolling (rolls_used : Nat)
  | MustScore
  | Done
deriving DecidableEq, Repr

/-- `GameError` (game.rs). -/
inductive GameError where
  | CannotRoll
  | CannotHold
  | CannotScore
  | NoActiveTurn
  | CategoryAlreadyScored
  | NotEnoughPlayers
  | TooManyPlayers
  | NotYourTurn
  | GameNotInProgress
deriving DecidableEq, Repr

/-- `TurnState` (game.rs). -/
structure TurnState where
  player_id : Nat
  phase : TurnPhase
  dice : DiceSet
  rolls_used : Nat
deriving DecidableEq, Repr

/-- `TurnState::new` (game.rs). -/
def TurnState.new (player_id : Nat) : TurnState :=
  ⟨player_id, .WaitingForRoll, DiceSet.new, 0⟩

/-- `TurnState::can_roll` (game.rs). -/
def TurnState.can_roll (t : TurnState) : Bool :=
  (t.rolls_used < MAX_ROLLS) &&
    (match t.phase with
     | .WaitingForRoll => true
     | .Rolling _ => true
     | _ => false)

/-- `TurnState::can_hold` (game.rs). -/
def TurnState.can_hold (t : TurnState) : Bool :=
  match t.phase with
  | .Rolling _ => true
  | _ => false

/-- `TurnState::can_score` (game.rs). -/
def TurnState.can_score (t : TurnState) : Bool :=
  match t.phase with
  | .Rolling _ => true
  | .MustScore => true
  | _ => false

/-- `TurnState::roll` (game.rs): releases stale holds on the first roll
of the turn, rolls unheld dice, bumps the roll counter, and moves to
`MustScore` after the third roll. -/
def TurnState.roll (t : TurnState) (rng : Rng) :
    Except GameError Unit × TurnState × Rng :=
  if ¬ t.can_roll then (.error .CannotRoll, t, rng)
  else
    let dice := if t.rolls_used == 0 then t.dice.release_all else t.dice
    let (dice', rng') := dice.roll_unheld rng
    let rolls_used := t.rolls_used + 1
    let phase :=
      if MAX_ROLLS ≤ rolls_used then TurnPhase.MustScore
      else TurnPhase.Rolling rolls_used
    (.ok (), { t with dice := dice', rolls_used := rolls_used, phase := phase }, rng')

/-- `TurnState::hold` (game.rs). -/
def TurnState.hold (t : TurnState) (held : HeldMask) :
    Except GameError Unit × TurnState :=
  if ¬ t.can_hold then (.error .CannotHold, t)
  else (.ok (), { t with dice := t.dice.set_held held })

end Yaht

namespace Yaht

/-- can_roll characterised by the turn phase and roll counter. -/
theorem can_roll_iff (t : TurnState) :
    t.can_roll = true ↔
      t.rolls_used < 3 ∧ (t.phase = .WaitingForRoll ∨ ∃ n, t.phase = .Rolling n) := by
  cases hp : t.phase <;>
    simp [TurnState.can_roll, MAX_ROLLS, hp]

/-- Claim C6: a roll succeeds exactly from `WaitingForRoll` or `Rolling`
with fewer than 3 rolls used; a failing roll returns `CannotRoll` and
leaves the turn untouched; a successful roll increments the counter and
reaches `MustScore` exactly at the third roll (so a 4th always fails);
`hold` before any roll (`WaitingForRoll`) fails with `CannotHold`
leaving the turn untouched. -/
theorem turn_roll_hold_discipline (t : TurnState) (rng : Rng) :
    ((t.roll rng).1 = .ok () ↔
      t.rolls_used < 3 ∧ (t.phase = .WaitingForRoll ∨ ∃ n, t.phase = .Rolling n))
    ∧ (t.can_roll = false → t.roll rng = (.error .CannotRoll, t, rng))
    ∧ (t.can_roll = true →
        (t.roll rng).2.1.rolls_used = t.rolls_used + 1 ∧
          (t.roll rng).2.1.phase =
            (if 3 ≤ t.rolls_used + 1 then .MustScore
             else .Rolling (t.rolls_used + 1)))
    ∧ (∀ held, t.phase = .WaitingForRoll → t.hold held = (.error .CannotHold, t))
    := by
  refine ⟨?_, ?_, ?_, ?_⟩
  · rw [← can_roll_iff]
    by_cases hc : t.can_roll = true <;> simp [TurnState.roll, hc]
  · intro hc
    simp [TurnState.roll, hc]
  · intro hc
    simp [TurnState.roll, hc, DiceSet.roll_unheld, MAX_ROLLS]
  · intro held hp
    have hch : t.can_hold = false := by simp [TurnState.can_hold, hp]
    simp [TurnState.hold, hch]

/-- Concrete instantiation of the C6 theorem: on a fresh turn, holding
fails with `CannotHold` and leaves the turn unchanged. -/
theorem turn_roll_hold_discipline_witness :
    (TurnState.new 7).hold ⟨true, false, false, false, false⟩ =
      (.error .CannotHold, TurnState.new 7) :=
  (turn_roll_hold_discipline (TurnState.new 7) ⟨fun _ => 0, 0⟩).2.2.2
    ⟨true, false, false, false, false⟩ rfl

/-- Claim C7: a held die is never re-rolled — `Die::roll` is a no-op on
a held die, `TurnState::roll` after the first roll of a turn preserves
every held die's value, and `hold` only sets held flags, never values. -/
theorem held_dice_values_invariant :
    (∀ (d : Die) (rng : Rng), d.held = true → d.roll rng = (d, rng))
    ∧ (∀ (t : TurnState) (rng : Rng) (i : Fin 5), 0 < t.rolls_used →
        (t.dice.get i).held = true →
          ((t.roll rng).2.1.dice.get i).value = (t.dice.get i).value)
    ∧ (∀ (t : TurnState) (held : HeldMask) (i : Fin 5),
        ((t.hold held).2.dice.get i).value = (t.dice.get i).value)
    := by
  refine ⟨?_, ?_, ?_⟩
  · intro d rng h
    simp [Die.roll, h]
  · intro t rng i hpos hheld
    by_cases hc : t.can_roll = true
    · have h0 : (t.rolls_used == 0) = false := by
        simp only [beq_eq_false_iff_ne]
        omega
      fin_cases i <;>
        · simp only [DiceSet.get] at hheld ⊢
          simp [TurnState.roll, hc, h0, DiceSet.roll_unheld, Die.roll, hheld]
    · simp [TurnState.roll, hc]
  · intro t held i
    by_cases hc : t.can_hold = true <;>
      fin_cases i <;>
        simp [TurnState.hold, hc, DiceSet.set_held, DiceSet.get]

/-- Concrete instantiation of the C7 theorem: a held die showing 5
survives a second roll of the turn. -/
theorem held_dice_values_invariant_witness :
    ((({ player_id := 0, phase := .Rolling 1,
         dice := ⟨⟨5, true⟩, Die.new, Die.new, Die.new, Die.new⟩,
         rolls_used := 1 } : TurnState).roll ⟨fun _ => 3, 0⟩).2.1.dice.get 0).value
      = 5 :=
  held_dice_values_invariant.2.1
    { player_id := 0, phase := .Rolling 1,
      dice := ⟨⟨5, true⟩, Die.new, Die.new, Die.new, Die.new⟩, rolls_used := 1 }
    ⟨fun _ => 3, 0⟩ 0 (by decide) (by decide)

end Yaht

namespace Yaht

/-- Modelled from the spec: `compute_score_joker` is called by
`score_category` (game.rs) but its definition is not among the provided
source files (scoring.rs ends at `is_yahtzee`).  Per spec §4.1, when
`joker_active` is true it overrides Full House / Small Straight / Large
Straight to their fixed values 25/30/40, leaving upper-section and
N-of-a-kind/Chance behaviour unchanged; when false it is the standard
`compute_score`. -/
def compute_score_joker (category : Category) (dice : List Nat)
    (joker_active : Bool) : Nat :=
  if joker_active then
    match category with
    | .FullHouse => 25
    | .SmallStraight => 30
    | .LargeStraight => 40
    | _ => compute_score category dice
  else compute_score category dice

/-- `ScorecardError` (player.rs). -/
inductive ScorecardError where
  | CategoryAlreadyUsed
deriving DecidableEq, Repr

/-- `Scorecard` (player.rs): the `HashMap<Category, u16>` is embedded as
a function `Category → Option Nat` (its only uses are keyed lookup,
keyed insert, and the key count below). -/
structure Scorecard where
  scores : Category → Option Nat
  yahtzee_bonus_count : Nat

/-- `Scorecard::new` (player.rs). -/
def Scorecard.new : Scorecard := ⟨fun _ => none, 0⟩

/-- `Scorecard::is_category_used` (player.rs). -/
def Scorecard.is_category_used (sc : Scorecard) (category : Category) : Bool :=
  (sc.scores category).isSome

/-- `Scorecard::record` (player.rs): rejects overwrite. -/
def Scorecard.record (sc : Scorecard) (category : Category) (score : Nat) :
    Except ScorecardError Scorecard :=
  if sc.is_category_used category then .error .CategoryAlreadyUsed
  else .ok { sc with
    scores := fun c => if c = category then some score else sc.scores c }

/-- `Scorecard::add_yahtzee_bonus` (player.rs). -/
def Scorecard.add_yahtzee_bonus (sc : Scorecard) : Scorecard :=
  { sc with yahtzee_bonus_count := sc.yahtzee_bonus_count + 1 }

/-- `Scorecard::upper_subtotal` (player.rs). -/
def Scorecard.upper_subtotal (sc : Scorecard) : Nat :=
  (Category.UPPER.filterMap sc.scores).sum

/-- `Scorecard::upper_bonus` (player.rs). -/
def Scorecard.upper_bonus (sc : Scorecard) : Nat :=
  if UPPER_BONUS_THRESHOLD ≤ sc.upper_subtotal then UPPER_BONUS_VALUE else 0

/-- `Scorecard::lower_total` (player.rs). -/
def Scorecard.lower_total (sc : Scorecard) : Nat :=
  ((Category.ALL.filter (fun c => ! c.is_upper)).filterMap sc.scores).sum

/-- `Scorecard::yahtzee_bonus_total` (player.rs). -/
def Scorecard.yahtzee_bonus_total (sc : Scorecard) : Nat :=
  sc.yahtzee_bonus_count * YAHTZEE_BONUS_VALUE

/-- `Scorecard::grand_total` (player.rs). -/
def Scorecard.grand_total (sc : Scorecard) : Nat :=
  sc.upper_subtotal + sc.upper_bonus + sc.lower_total + sc.yahtzee_bonus_total

/-- The `HashMap::len` of the scorecard: how many categories are filled. -/
def Scorecard.numFilled (sc : Scorecard) : Nat :=
  (Category.ALL.filter (fun c => (sc.scores c).isSome)).length

/-- `Scorecard::is_complete` (player.rs): `scores.len() == 13`. -/
def Scorecard.is_complete (sc : Scorecard) : Bool :=
  sc.numFilled == 13

/-- `Player` (player.rs). -/
structure Player where
  id : Nat
  name : String
  scorecard : Scorecard
  connected : Bool

/-- `Player::new` (player.rs). -/
def Player.new (id : Nat) (name : String) : Player :=
  ⟨id, name, Scorecard.new, true⟩

/-- The out-of-bounds fallback for list indexing (Rust would panic;
every theorem below stays within bounds). -/
def defaultPlayer : Player := Player.new 0 ""

/-- `GamePhase` (game.rs). -/
inductive GamePhase where
  | Lobby
  | Playing
  | Finished
deriving DecidableEq, Repr

/-- `GameState` (game.rs). -/
structure GameState where
  phase : GamePhase
  players : List Player
  current_player_index : Nat
  turn : Option TurnState
  round : Nat
  total_rounds : Nat

/-- `GameState::new` (game.rs). -/
def GameState.new (players : List Player) : GameState :=
  ⟨.Lobby, players, 0, none, 0, 13⟩

/-- `GameState::current_player` (game.rs). -/
def GameState.current_player (s : GameState) : Player :=
  s.players.getD s.current_player_index defaultPlayer

/-- `GameState::is_current_player` (game.rs). -/
def GameState.is_current_player (s : GameState) (player_id : Nat) : Bool :=
  s.current_player.id == player_id

/-- Replacing the current player's record (`current_player_mut`). -/
def GameState.set_current_player (s : GameState) (p : Player) : GameState :=
  { s with players := s.players.set s.current_player_index p }

/-- `GameState::start` (game.rs): requires 2..6 players. -/
def GameState.start (s : GameState) : Except GameError Unit × GameState :=
  if s.players.length < 2 then (.error .NotEnoughPlayers, s)
  else if 6 < s.players.length then (.error .TooManyPlayers, s)
  else
    let s' := { s with phase := GamePhase.Playing, round := 1,
                       current_player_index := 0 }
    (.ok (), { s' with turn := some (TurnState.new s'.current_player.id) })

/-- `GameState::start_solo` (game.rs): allows a single player. -/
def GameState.start_solo (s : GameState) : Except GameError Unit × GameState :=
  if s.players.length = 0 then (.error .NotEnoughPlayers, s)
  else if 6 < s.players.length then (.error .TooManyPlayers, s)
  else
    let s' := { s with phase := GamePhase.Playing, round := 1,
                       current_player_index := 0 }
    (.ok (), { s' with turn := some (TurnState.new s'.current_player.id) })

/-- `GameState::roll_dice` (game.rs). -/
def GameState.roll_dice (s : GameState) (player_id : Nat) (rng : Rng) :
    Except GameError Unit × GameState × Rng :=
  if s.phase ≠ .Playing then (.error .GameNotInProgress, s, rng)
  else if ¬ s.is_current_player player_id then (.error .NotYourTurn, s, rng)
  else
    match s.turn with
    | none => (.error .NoActiveTurn, s, rng)
    | some t =>
      let (res, t', rng') := t.roll rng
      (res, { s with turn := some t' }, rng')

/-- `GameState::hold_dice` (game.rs). -/
def GameState.hold_dice (s : GameState) (player_id : Nat) (held : HeldMask) :
    Except GameError Unit × GameState :=
  if s.phase ≠ .Playing then (.error .GameNotInProgress, s)
  else if ¬ s.is_current_player player_id then (.error .NotYourTurn, s)
  else
    match s.turn with
    | none => (.error .NoActiveTurn, s)
    | some t =>
      let (res, t') := t.hold held
      (res, { s with turn := some t' })

/-- `GameState::advance_turn` (game.rs): bump the player index, wrap and
bump the round, finish after the last round, otherwise hand a fresh
`TurnState` to the new current player. -/
def GameState.advance_turn (s : GameState) : GameState :=
  let idx := s.current_player_index + 1
  let wrapped := s.players.length ≤ idx
  let s' := { s with current_player_index := if wrapped then 0 else idx,
                     round := if wrapped then s.round + 1 else s.round }
  if s'.total_rounds < s'.round then
    { s' with phase := GamePhase.Finished, turn := none }
  else
    { s' with turn := some (TurnState.new s'.current_player.id) }

/-- `GameState::score_category` (game.rs): validate, credit a Yahtzee
bonus when the joker condition holds, record the (possibly joker)
score, then advance the turn. -/
def GameState.score_category (s : GameState) (player_id : Nat)
    (category : Category) : Except GameError Nat × GameState :=
  if s.phase ≠ .Playing then (.error .GameNotInProgress, s)
  else if ¬ s.is_current_player player_id then (.error .NotYourTurn, s)
  else
    match s.turn with
    | none => (.error .NoActiveTurn, s)
    | some turn =>
      if ¬ turn.can_score then (.error .CannotScore, s)
      else
        let dice_values := turn.dice.values
        let is_yah := compute_score .Yahtzee dice_values == 50
        let joker_active := is_yah &&
          (s.current_player.scorecard.scores .Yahtzee == some 50)
        let s1 := if joker_active then
            s.set_current_player
              { s.current_player with
                  scorecard := s.current_player.scorecard.add_yahtzee_bonus }
          else s
        let score := compute_score_joker category dice_values joker_active
        match s1.current_player.scorecard.record category score with
        | .error _ => (.error .CategoryAlreadyScored, s1)
        | .ok sc' =>
          let s2 := s1.set_current_player
            { s1.current_player with scorecard := sc' }
          (.ok score, s2.advance_turn)

/-- One step of `Iterator::max_by_key` as `fold` implements it: the
accumulator survives only when its key is strictly greater, so ties go
to the later element. -/
def winnerStep (acc : Option Player) (p : Player) : Option Player :=
  match acc with
  | none => some p
  | some m =>
    if p.scorecard.grand_total < m.scorecard.grand_total then some m
    else some p

/-- `GameState::winner` (game.rs): `max_by_key` over the players by
grand total, `None` outside the Finished phase. -/
def GameState.winner (s : GameState) : Option Player :=
  if s.phase ≠ .Finished then none
  else s.players.foldl winnerStep none

end Yaht

namespace Yaht

/-- `Room` (room.rs). -/
structure Room where
  id : Nat
  name : String
  max_players : Nat
  host_id : Nat
  player_ids : List Nat
  spectator_ids : List Nat
  game : Option GameState
  password : Option String

/-- `Room::new` (room.rs): capacity clamped into 2..6, host seeded as
sole player. -/
def Room.new (id : Nat) (name : String) (max_players : Nat) (host_id : Nat)
    (password : Option String) : Room :=
  ⟨id, name, min (max max_players 2) 6, host_id, [host_id], [], none, password⟩

/-- `Room::check_password` (room.rs). -/
def Room.check_password (r : Room) (provided : Option String) : Bool :=
  match r.password with
  | none => true
  | some pass =>
    match provided with
    | some p => p == pass
    | none => false

/-- `Room::add_player` (room.rs): capacity check, then game-in-progress
check, then idempotent push. -/
def Room.add_player (r : Room) (player_id : Nat) :
    Except GameError Unit × Room :=
  if r.max_players ≤ r.player_ids.length then (.error .TooManyPlayers, r)
  else if r.game.isSome then (.error .GameNotInProgress, r)
  else if r.player_ids.contains player_id then (.ok (), r)
  else (.ok (), { r with player_ids := r.player_ids ++ [player_id] })

/-- `Room::add_spectator` (room.rs). -/
def Room.add_spectator (r : Room) (spectator_id : Nat) : Room :=
  if r.spectator_ids.contains spectator_id then r
  else { r with spectator_ids := r.spectator_ids ++ [spectator_id] }

/-- `Room::remove_player` (room.rs): retain on both id lists, then
re-elect the first remaining player as host if the host left. -/
def Room.remove_player (r : Room) (player_id : Nat) : Room :=
  let r1 := { r with
    player_ids := r.player_ids.filter (fun i => i != player_id),
    spectator_ids := r.spectator_ids.filter (fun i => i != player_id) }
  if r.host_id = player_id then
    match r1.player_ids with
    | [] => r1
    | new_host :: _ => { r1 with host_id := new_host }
  else r1

/-- `Room::is_empty` (room.rs). -/
def Room.is_empty (r : Room) : Bool :=
  r.player_ids.isEmpty && r.spectator_ids.isEmpty

end Yaht

namespace Yaht

/-- Claim C10: a passwordless room accepts every join attempt — even one
supplying an arbitrary wrong password — and a room with password `p`
accepts exactly the attempts supplying `p`. -/
theorem check_password_characterisation (r : Room) (provided : Option String) :
    (r.password = none → r.check_password provided = true)
    ∧ (∀ p, r.password = some p →
        (r.check_password provided = true ↔ provided = some p)) := by
  constructor
  · intro h
    simp [Room.check_password, h]
  · intro p h
    cases provided with
    | none => simp [Room.check_password, h]
    | some q => simp [Room.check_password, h]

/-- Concrete instantiation of the C10 theorem: a passwordless room
accepts a join that supplies the wrong password "hunter2". -/
theorem check_password_characterisation_witness :
    (Room.new 1 "lobby" 4 9 none).check_password (some "hunter2") = true :=
  (check_password_characterisation (Room.new 1 "lobby" 4 9 none)
    (some "hunter2")).1 rfl

/-- A two-player room at capacity with player 0 already present. -/
def roomAtCapacity : Room :=
  { id := 0, name := "full", max_players := 2, host_id := 0,
    player_ids := [0, 1], spectator_ids := [], game := none, password := none }

/-- Counterexample to claim C8 as stated: re-adding the already-present
player 0 to a room at capacity does NOT succeed — the capacity check
runs first and rejects it with `TooManyPlayers`. -/
theorem add_player_readd_at_capacity_fails :
    0 ∈ roomAtCapacity.player_ids ∧
      (roomAtCapacity.add_player 0).1 = .error .TooManyPlayers := by
  constructor
  · decide
  · rfl

/-- Claim C8 (amended): `add_player` at capacity always fails with
`TooManyPlayers` leaving the room unchanged; re-adding an id already in
the player list succeeds and leaves the list unchanged — provided the
room is below capacity and has no game in progress. -/
theorem add_player_capacity_and_idempotence (r : Room) (pid : Nat) :
    (r.max_players ≤ r.player_ids.length →
      r.add_player pid = (.error .TooManyPlayers, r))
    ∧ (r.player_ids.length < r.max_players → r.game = none →
        pid ∈ r.player_ids → r.add_player pid = (.ok (), r)) := by
  constructor
  · intro h
    simp [Room.add_player, h]
  · intro hlen hgame hmem
    have h1 : ¬ r.max_players ≤ r.player_ids.length := by omega
    simp [Room.add_player, h1, hgame, List.elem_eq_mem, hmem]

/-- Concrete instantiation of the amended C8 theorem: re-adding player 5
to a below-capacity room without a game is a successful no-op. -/
theorem add_player_capacity_and_idempotence_witness :
    ({ id := 0, name := "open", max_players := 3, host_id := 5,
       player_ids := [5], spectator_ids := [], game := none,
       password := none } : Room).add_player 5 =
      (.ok (), { id := 0, name := "open", max_players := 3, host_id := 5,
                 player_ids := [5], spectator_ids := [], game := none,
                 password := none }) :=
  (add_player_capacity_and_idempotence _ 5).2 (by decide) rfl (by decide)

/-- Claim C9: `remove_player` drops the id from the player and spectator
lists (and nothing else); if the host was removed and players remain,
the first remaining player-list entry becomes the host; if none remain,
no member of the room is the host. -/
theorem remove_player_correct (r : Room) (pid : Nat) :
    pid ∉ (r.remove_player pid).player_ids
    ∧ pid ∉ (r.remove_player pid).spectator_ids
    ∧ (r.remove_player pid).player_ids = r.player_ids.filter (fun i => i != pid)
    ∧ (r.remove_player pid).spectator_ids =
        r.spectator_ids.filter (fun i => i != pid)
    ∧ (r.host_id = pid → (r.remove_player pid).player_ids ≠ [] →
        some (r.remove_player pid).host_id =
          (r.remove_player pid).player_ids.head?)
    ∧ (r.host_id = pid → (r.remove_player pid).player_ids = [] →
        (r.remove_player pid).host_id ∉ (r.remove_player pid).player_ids ∧
          (r.remove_player pid).host_id ∉ (r.remove_player pid).spectator_ids)
    ∧ (r.host_id ≠ pid → (r.remove_player pid).host_id = r.host_id) := by
  have hsplit : ∀ l : List Nat, pid ∉ l.filter (fun i => i != pid) := by
    intro l hmem
    simp [List.mem_filter] at hmem
  by_cases hh : r.host_id = pid
  · cases hpl : r.player_ids.filter (fun i => i != pid) with
    | nil =>
      refine ⟨?_, ?_, ?_, ?_, ?_, ?_, ?_⟩ <;>
        simp only [Room.remove_player, hh, if_pos rfl, hpl] <;>
        simp [hh, hsplit r.spectator_ids]
    | cons q t =>
      have hq : q ≠ pid := by
        intro hq
        have := hsplit r.player_ids
        rw [hpl, hq] at this
        simp at this
      refine ⟨?_, ?_, ?_, ?_, ?_, ?_, ?_⟩ <;>
        simp only [Room.remove_player, hh, if_pos rfl, hpl] <;>
        simp [hh, hsplit r.spectator_ids]
      · have := hsplit r.player_ids
        rw [hpl] at this
        simp at this
        exact ⟨fun h => hq h.symm, this.2⟩
  · refine ⟨?_, ?_, ?_, ?_, ?_, ?_, ?_⟩ <;>
      simp only [Room.remove_player, if_neg hh] <;>
      simp [hh, hsplit]

/-- Concrete instantiation of the C9 theorem: removing host 1 from a
room with players [1, 2] re-elects player 2. -/
theorem remove_player_correct_witness :
    some (({ id := 0, name := "r", max_players := 2, host_id := 1,
             player_ids := [1, 2], spectator_ids := [], game := none,
             password := none } : Room).remove_player 1).host_id =
      (({ id := 0, name := "r", max_players := 2, host_id := 1,
          player_ids := [1, 2], spectator_ids := [], game := none,
          password := none } : Room).remove_player 1).player_ids.head? :=
  (remove_player_correct _ 1).2.2.2.2.1 rfl (by decide)

end Yaht

namespace Yaht

/-- getD after set at the same in-bounds index. -/
theorem getD_set_self {α : Type} (l : List α) (i : Nat) (a d : α)
    (h : i < l.length) : (l.set i a).getD i d = a := by
  simp [List.getD_eq_getElem?_getD, List.getElem?_set_self h]

/-- getD after set at a different index. -/
theorem getD_set_ne {α : Type} (l : List α) (i j : Nat) (a d : α)
    (h : i ≠ j) : (l.set i a).getD j d = l.getD j d := by
  simp [List.getD_eq_getElem?_getD, List.getElem?_set_ne h]

/-- advance_turn never touches the player list. -/
theorem advance_turn_players (s : GameState) :
    s.advance_turn.players = s.players := by
  simp only [GameState.advance_turn]
  split <;> split <;> rfl

/-- A literal Yahtzee of any face in 1..6 scores 50 in category Yahtzee. -/
theorem yahtzee_score_of_equal (v : Nat) (h1 : 1 ≤ v) (h6 : v ≤ 6) :
    compute_score .Yahtzee [v, v, v, v, v] = 50 := by
  interval_cases v <;> rfl

/-- The current player carrying a freshly credited Yahtzee bonus. -/
def bonusPlayer (s : GameState) : Player :=
  { s.current_player with
      scorecard := s.current_player.scorecard.add_yahtzee_bonus }

/-- The current player after the bonus credit and the recording of the
joker score `scr` for `cat`. -/
def jokerPlayer (s : GameState) (cat : Category) (scr : Nat) : Player :=
  { s.current_player with scorecard :=
      ⟨fun c => if c = cat then some scr else s.current_player.scorecard.scores c,
        s.current_player.scorecard.yahtzee_bonus_count + 1⟩ }

/-- The state produced by a successful joker-active `score_category`. -/
def jokerResultState (s : GameState) (cat : Category) (scr : Nat) : GameState :=
  ({ s with players :=
      ((s.players.set s.current_player_index (bonusPlayer s)).set
        s.current_player_index (jokerPlayer s cat scr)) }).advance_turn

/-- Unfolding of `score_category` once the four validation checks pass. -/
theorem score_category_eq (s : GameState) (pid : Nat) (cat : Category)
    (t : TurnState) (hphase : s.phase = .Playing)
    (hcur : s.is_current_player pid = true) (hturn : s.turn = some t)
    (hscore : t.can_score = true) :
    s.score_category pid cat =
      (let dice_values := t.dice.values
       let joker_active := (compute_score .Yahtzee dice_values == 50) &&
         (s.current_player.scorecard.scores .Yahtzee == some 50)
       let s1 := if joker_active then s.set_current_player (bonusPlayer s) else s
       let score := compute_score_joker cat dice_values joker_active
       match s1.current_player.scorecard.record cat score with
       | .error _ => (.error .CategoryAlreadyScored, s1)
       | .ok sc' =>
         (.ok score,
          (s1.set_current_player
            { s1.current_player with scorecard := sc' }).advance_turn)) := by
  simp only [GameState.score_category, hphase, hturn, hscore, hcur]
  simp [bonusPlayer]

end Yaht

namespace Yaht

/-- A scorecard that has already banked Yahtzee for 50 and Chance for 20. -/
def cardC3 : Scorecard :=
  ⟨fun c => if c = .Yahtzee then some 50 else if c = .Chance then some 20
    else none, 0⟩

/-- A mid-game state: player 10 (to move, dice showing five fives,
already holding Yahtzee = 50) and a fresh player 11. -/
def gameC3 : GameState :=
  { phase := .Playing,
    players := [⟨10, "p0", cardC3, true⟩, Player.new 11 "p1"],
    current_player_index := 0,
    turn := some ⟨10, .MustScore,
      ⟨⟨5, false⟩, ⟨5, false⟩, ⟨5, false⟩, ⟨5, false⟩, ⟨5, false⟩⟩, 3⟩,
    round := 5, total_rounds := 13 }

/-- Claim C3 is violated by the code: scoring the already-filled Chance
category while the joker condition holds returns the game-rule error
`CategoryAlreadyScored`, yet the player's `yahtzee_bonus_count` has
been incremented from 0 to 1 — the error is not a transactional no-op. -/
theorem score_category_error_mutates_state :
    (gameC3.score_category 10 .Chance).1 = .error .CategoryAlreadyScored
    ∧ (gameC3.players.getD 0 defaultPlayer).scorecard.yahtzee_bonus_count = 0
    ∧ ((gameC3.score_category 10 .Chance).2.players.getD 0
        defaultPlayer).scorecard.yahtzee_bonus_count = 1 :=
  ⟨rfl, rfl, rfl⟩

end Yaht

namespace Yaht

/-- Claim C2: in a Playing game whose dice show a literal Yahtzee and
whose current player already has Yahtzee recorded as 50, a successful
`score_category` increments that player's `yahtzee_bonus_count` by
exactly one regardless of the chosen category, records the joker score,
and returns the fixed 25/30/40 for Full House / Small Straight / Large
Straight while every other category scores by its normal rule. -/
theorem score_category_joker_rule (s : GameState) (pid : Nat) (cat : Category)
    (t : TurnState) (v : Nat)
    (hphase : s.phase = .Playing)
    (hidx : s.current_player_index < s.players.length)
    (hturn : s.turn = some t)
    (hscore : t.can_score = true)
    (hcur : s.is_current_player pid = true)
    (hdice : t.dice.values = [v, v, v, v, v])
    (hv1 : 1 ≤ v) (hv6 : v ≤ 6)
    (hyah : s.current_player.scorecard.scores .Yahtzee = some 50)
    (hunused : s.current_player.scorecard.scores cat = none) :
    ((s.score_category pid cat).1 =
        .ok (compute_score_joker cat t.dice.values true))
    ∧ (((s.score_category pid cat).2.players.getD s.current_player_index
          defaultPlayer).scorecard.yahtzee_bonus_count =
        s.current_player.scorecard.yahtzee_bonus_count + 1)
    ∧ (((s.score_category pid cat).2.players.getD s.current_player_index
          defaultPlayer).scorecard.scores cat =
        some (compute_score_joker cat t.dice.values true))
    ∧ (cat = .FullHouse → (s.score_category pid cat).1 = .ok 25)
    ∧ (cat = .SmallStraight → (s.score_category pid cat).1 = .ok 30)
    ∧ (cat = .LargeStraight → (s.score_category pid cat).1 = .ok 40)
    ∧ (cat ≠ .FullHouse → cat ≠ .SmallStraight → cat ≠ .LargeStraight →
        (s.score_category pid cat).1 = .ok (compute_score cat t.dice.values)) := by
  have h50 : compute_score .Yahtzee t.dice.values = 50 := by
    rw [hdice]
    exact yahtzee_score_of_equal v hv1 hv6
  have hj : ((compute_score .Yahtzee t.dice.values == 50) &&
      (s.current_player.scorecard.scores .Yahtzee == some 50)) = true := by
    rw [h50, hyah]
    rfl
  have hc1 : (s.set_current_player (bonusPlayer s)).current_player =
      bonusPlayer s := by
    simp only [GameState.set_current_player, GameState.current_player]
    exact getD_set_self _ _ _ _ hidx
  have hrec : (bonusPlayer s).scorecard.record cat
      (compute_score_joker cat t.dice.values true) =
      .ok (jokerPlayer s cat
        (compute_score_joker cat t.dice.values true)).scorecard := by
    simp [bonusPlayer, jokerPlayer, Scorecard.record, Scorecard.is_category_used,
      Scorecard.add_yahtzee_bonus, hunused]
  have hmain : s.score_category pid cat =
      (.ok (compute_score_joker cat t.dice.values true),
        jokerResultState s cat (compute_score_joker cat t.dice.values true)) := by
    rw [score_category_eq s pid cat t hphase hcur hturn hscore]
    simp only [hj, eq_self_iff_true, if_true]
    simp only [hc1, hrec]
    simp only [jokerResultState, GameState.set_current_player, bonusPlayer,
      jokerPlayer, Scorecard.add_yahtzee_bonus]
  have hplayers : (s.score_category pid cat).2.players.getD
      s.current_player_index defaultPlayer =
      jokerPlayer s cat (compute_score_joker cat t.dice.values true) := by
    rw [hmain]
    simp only [jokerResultState, advance_turn_players]
    exact getD_set_self _ _ _ _ (by simpa using hidx)
  refine ⟨by rw [hmain], ?_, ?_, ?_, ?_, ?_, ?_⟩
  · rw [hplayers]
    rfl
  · rw [hplayers]
    simp [jokerPlayer]
  · rintro rfl
    rw [hmain]
    simp [compute_score_joker]
  · rintro rfl
    rw [hmain]
    simp [compute_score_joker]
  · rintro rfl
    rw [hmain]
    simp [compute_score_joker]
  · intro h1 h2 h3
    rw [hmain]
    cases cat <;> simp_all [compute_score_joker]

end Yaht

namespace Yaht

/-- A scorecard holding only Yahtzee = 50. -/
def cardC2 : Scorecard :=
  ⟨fun c => if c = .Yahtzee then some 50 else none, 0⟩

/-- The turn of the C2 witness game: five fives, third roll spent. -/
def turnC2 : TurnState :=
  ⟨10, .MustScore, ⟨⟨5, false⟩, ⟨5, false⟩, ⟨5, false⟩, ⟨5, false⟩, ⟨5, false⟩⟩, 3⟩

/-- A Playing game whose current player 10 has banked Yahtzee = 50 and
has just rolled a second Yahtzee of fives. -/
def gameC2 : GameState :=
  { phase := .Playing,
    players := [⟨10, "p0", cardC2, true⟩, Player.new 11 "p1"],
    current_player_index := 0,
    turn := some turnC2,
    round := 5, total_rounds := 13 }

/-- Concrete instantiation of the C2 theorem: scoring Full House on a
joker Yahtzee of fives returns the fixed 25 and credits one bonus. -/
theorem score_category_joker_rule_witness :
    (gameC2.score_category 10 .FullHouse).1 = .ok 25 ∧
      ((gameC2.score_category 10 .FullHouse).2.players.getD 0
        defaultPlayer).scorecard.yahtzee_bonus_count = 1 := by
  obtain ⟨h1, h2, h3, h4, h5, h6, h7⟩ :=
    score_category_joker_rule gameC2 10 .FullHouse turnC2 5 rfl (by decide)
      rfl rfl rfl rfl (by decide) (by decide) rfl rfl
  exact ⟨h4 rfl, h2.trans rfl⟩

end Yaht

namespace Yaht

/-- Folding `winnerStep` from an accumulator decomposes the carried list
around the surviving element: everything before it keys `≤`, everything
after it keys strictly `<` (the later of two tied elements wins). -/
theorem winnerStep_fold_lastmax (ps : List Player) (m : Player) :
    ∃ w l1 l2,
      ps.foldl winnerStep (some m) = some w ∧
      m :: ps = l1 ++ w :: l2 ∧
      (∀ q ∈ l1, q.scorecard.grand_total ≤ w.scorecard.grand_total) ∧
      (∀ q ∈ l2, q.scorecard.grand_total < w.scorecard.grand_total) := by
  induction ps generalizing m with
  | nil =>
    exact ⟨m, [], [], rfl, rfl, by simp, by simp⟩
  | cons x xs ih =>
    rw [List.foldl_cons]
    by_cases h : x.scorecard.grand_total < m.scorecard.grand_total
    · have hstep : winnerStep (some m) x = some m := by simp [winnerStep, h]
      rw [hstep]
      obtain ⟨w, l1, l2, hw, hsplit, hle, hlt⟩ := ih m
      cases l1 with
      | nil =>
        simp only [List.nil_append, List.cons.injEq] at hsplit
        obtain ⟨rfl, rfl⟩ := hsplit
        refine ⟨m, [], x :: xs, hw, by simp, by simp, ?_⟩
        intro q hq
        rcases List.mem_cons.mp hq with rfl | hq
        · exact h
        · exact hlt q hq
      | cons a l1' =>
        simp only [List.cons_append, List.cons.injEq] at hsplit
        obtain ⟨rfl, hxs⟩ := hsplit
        refine ⟨w, m :: x :: l1', l2, hw, by simp [hxs], ?_, hlt⟩
        intro q hq
        rcases List.mem_cons.mp hq with rfl | hq'
        · exact hle _ (List.mem_cons_self _ _)
        · rcases List.mem_cons.mp hq' with rfl | hq''
          · exact Nat.le_trans (Nat.le_of_lt h) (hle _ (List.mem_cons_self _ _))
          · exact hle _ (List.mem_cons_of_mem _ hq'')
    · have hstep : winnerStep (some m) x = some x := by simp [winnerStep, h]
      rw [hstep]
      obtain ⟨w, l1, l2, hw, hsplit, hle, hlt⟩ := ih x
      have hxw : x.scorecard.grand_total ≤ w.scorecard.grand_total := by
        cases l1 with
        | nil =>
          simp only [List.nil_append, List.cons.injEq] at hsplit
          obtain ⟨rfl, _⟩ := hsplit
          exact Nat.le_refl _
        | cons a l1' =>
          simp only [List.cons_append, List.cons.injEq] at hsplit
          obtain ⟨rfl, _⟩ := hsplit
          exact hle _ (List.mem_cons_self _ _)
      refine ⟨w, m :: l1, l2, hw, by simp [hsplit], ?_, hlt⟩
      intro q hq
      rcases List.mem_cons.mp hq with rfl | hq
      · exact Nat.le_trans (Nat.le_of_not_lt h) hxw
      · exact hle q hq

/-- A Finished game between two players with equal (zero) grand totals:
player 1 comes first in iteration order. -/
def gameC5 : GameState :=
  { phase := .Finished, players := [Player.new 1 "a", Player.new 2 "b"],
    current_player_index := 0, turn := none, round := 14, total_rounds := 13 }

/-- Counterexample to claim C5 as stated: in a Finished game whose two
players tie on grand total, the first player with the maximum is player
1, yet `winner()` returns player 2 — Rust's `max_by_key` keeps the
LAST maximal element, not the first. -/
theorem winner_ties_go_to_last_counterexample :
    gameC5.phase = .Finished
    ∧ (gameC5.players.getD 0 defaultPlayer).scorecard.grand_total =
        (gameC5.players.getD 1 defaultPlayer).scorecard.grand_total
    ∧ (gameC5.players.getD 0 defaultPlayer).id = 1
    ∧ (gameC5.winner).map (fun p => p.id) = some 2 :=
  ⟨rfl, rfl, rfl, rfl⟩

/-- Claim C5 (amended): `winner()` returns a player only in the Finished
phase, and the returned player is the LAST player in iteration order
whose grand total (upper subtotal + 35 bonus at ≥63 + lower total +
100×yahtzee bonuses) attains the maximum: every earlier player scores
no higher, every later player scores strictly lower. -/
theorem winner_is_last_maximum (s : GameState) (p : Player)
    (h : s.winner = some p) :
    s.phase = .Finished ∧
      ∃ l1 l2, s.players = l1 ++ p :: l2 ∧
        (∀ q ∈ l1, q.scorecard.grand_total ≤ p.scorecard.grand_total) ∧
        (∀ q ∈ l2, q.scorecard.grand_total < p.scorecard.grand_total) := by
  by_cases hp : s.phase = .Finished
  · refine ⟨hp, ?_⟩
    unfold GameState.winner at h
    rw [if_neg (by simp [hp])] at h
    cases hps : s.players with
    | nil =>
      rw [hps] at h
      simp at h
    | cons x xs =>
      rw [hps, List.foldl_cons] at h
      have hx : winnerStep none x = some x := rfl
      rw [hx] at h
      obtain ⟨w, l1, l2, hw, hsplit, hle, hlt⟩ := winnerStep_fold_lastmax xs x
      rw [hw] at h
      obtain rfl : w = p := Option.some.inj h
      exact ⟨l1, l2, hsplit, hle, hlt⟩
  · unfold GameState.winner at h
    rw [if_pos (by simp [hp])] at h
    cases h

/-- Concrete instantiation of the amended C5 theorem at the tied
two-player Finished game. -/
theorem winner_is_last_maximum_witness :
    gameC5.phase = .Finished ∧
      ∃ l1 l2, gameC5.players = l1 ++ (Player.new 2 "b") :: l2 ∧
        (∀ q ∈ l1, q.scorecard.grand_total ≤
          (Player.new 2 "b").scorecard.grand_total) ∧
        (∀ q ∈ l2, q.scorecard.grand_total <
          (Player.new 2 "b").scorecard.grand_total) :=
  winner_is_last_maximum gameC5 (Player.new 2 "b") rfl

end Yaht

namespace Yaht

/-- Every category is listed in `Category::ALL`. -/
theorem mem_ALL (c : Category) : c ∈ Category.ALL := by
  cases c <;> simp [Category.ALL]

/-- `Category::ALL` has no duplicates. -/
theorem nodup_ALL : Category.ALL.Nodup := by decide

/-- Inserting a fresh key into the score map grows the filled-key count
of any duplicate-free key list containing it by exactly one. -/
theorem filter_isSome_length_update (l : List Category)
    (f : Category → Option Nat) (cat : Category) (v : Nat)
    (hn : f cat = none) (hmem : cat ∈ l) (hnd : l.Nodup) :
    (l.filter (fun c => (if c = cat then some v else f c).isSome)).length =
      (l.filter (fun c => (f c).isSome)).length + 1 := by
  induction l with
  | nil => simp at hmem
  | cons a t ih =>
    rw [List.filter_cons, List.filter_cons]
    rcases List.nodup_cons.mp hnd with ⟨hna, hndt⟩
    by_cases ha : a = cat
    · subst ha
      have hcongr : t.filter (fun c => (if c = a then some v else f c).isSome) =
          t.filter (fun c => (f c).isSome) := by
        apply List.filter_congr
        intro c hc
        have hca : ¬ c = a := fun h => hna (h ▸ hc)
        rw [if_neg hca]
      simp [hn, hcongr]
    · have hmem' : cat ∈ t := by
        rcases List.mem_cons.mp hmem with h | h
        · exact absurd h.symm ha
        · exact h
      rw [if_neg ha]
      by_cases hfa : (f a).isSome <;>
        simp [hfa, ih hmem' hndt]

/-- A fresh scorecard has no filled categories. -/
theorem numFilled_new : Scorecard.new.numFilled = 0 := rfl

/-- A successful `record` fills exactly one more category and stores the
given score under the given key. -/
theorem record_ok_numFilled (sc sc' : Scorecard) (cat : Category) (v : Nat)
    (h : sc.record cat v = .ok sc') :
    sc'.numFilled = sc.numFilled + 1 ∧ sc'.scores cat = some v ∧
      sc'.yahtzee_bonus_count = sc.yahtzee_bonus_count := by
  unfold Scorecard.record at h
  by_cases hu : sc.is_category_used cat
  · rw [if_pos hu] at h
    cases h
  · rw [if_neg hu] at h
    have hnone : sc.scores cat = none := by
      unfold Scorecard.is_category_used at hu
      cases hx : sc.scores cat with
      | none => rfl
      | some w => rw [hx] at hu; simp at hu
    obtain rfl := (Except.ok.inj h).symm
    refine ⟨?_, by simp, rfl⟩
    unfold Scorecard.numFilled
    exact filter_isSome_length_update Category.ALL sc.scores cat v hnone
      (mem_ALL cat) nodup_ALL

/-- `numFilled` depends only on the score map. -/
theorem numFilled_congr (sc1 sc2 : Scorecard) (h : sc1.scores = sc2.scores) :
    sc1.numFilled = sc2.numFilled := by
  unfold Scorecard.numFilled
  rw [h]

/-- `set_current_player` changes nothing but the player list, and keeps
its length. -/
theorem set_current_player_frame (s : GameState) (p : Player) :
    (s.set_current_player p).phase = s.phase
    ∧ (s.set_current_player p).current_player_index = s.current_player_index
    ∧ (s.set_current_player p).round = s.round
    ∧ (s.set_current_player p).total_rounds = s.total_rounds
    ∧ (s.set_current_player p).turn = s.turn
    ∧ (s.set_current_player p).players.length = s.players.length := by
  simp [GameState.set_current_player]

/-- Complete description of `advance_turn`: player list kept, index
bumped with wrap, round bumped on wrap, game finished exactly when the
new round exceeds `total_rounds`, otherwise a fresh turn for the new
current player. -/
theorem advance_turn_shape (s : GameState) :
    s.advance_turn.players = s.players
    ∧ s.advance_turn.current_player_index =
        (if s.players.length ≤ s.current_player_index + 1 then 0
         else s.current_player_index + 1)
    ∧ s.advance_turn.round =
        (if s.players.length ≤ s.current_player_index + 1 then s.round + 1
         else s.round)
    ∧ s.advance_turn.total_rounds = s.total_rounds
    ∧ (s.total_rounds <
        (if s.players.length ≤ s.current_player_index + 1 then s.round + 1
         else s.round) →
        s.advance_turn.phase = .Finished ∧ s.advance_turn.turn = none)
    ∧ ((if s.players.length ≤ s.current_player_index + 1 then s.round + 1
         else s.round) ≤ s.total_rounds →
        s.advance_turn.phase = s.phase ∧
          s.advance_turn.turn = some (TurnState.new
            (s.advance_turn.players.getD s.advance_turn.current_player_index
              defaultPlayer).id)) := by
  refine ⟨advance_turn_players s, ?_, ?_, ?_, ?_, ?_⟩
  · by_cases hw : s.players.length ≤ s.current_player_index + 1
    · simp only [GameState.advance_turn, if_pos hw]
      split <;> rfl
    · simp only [GameState.advance_turn, if_neg hw]
      split <;> rfl
  · by_cases hw : s.players.length ≤ s.current_player_index + 1
    · simp only [GameState.advance_turn, if_pos hw]
      split <;> rfl
    · simp only [GameState.advance_turn, if_neg hw]
      split <;> rfl
  · simp only [GameState.advance_turn]
    split <;> split <;> rfl
  · intro hc
    by_cases hw : s.players.length ≤ s.current_player_index + 1
    · rw [if_pos hw] at hc
      simp only [GameState.advance_turn, if_pos hw]
      rw [if_pos hc]
      exact ⟨rfl, rfl⟩
    · rw [if_neg hw] at hc
      simp only [GameState.advance_turn, if_neg hw]
      rw [if_pos hc]
      exact ⟨rfl, rfl⟩
  · intro hc
    by_cases hw : s.players.length ≤ s.current_player_index + 1
    · rw [if_pos hw] at hc
      simp only [GameState.advance_turn, if_pos hw]
      rw [if_neg (by omega : ¬ s.total_rounds < s.round + 1)]
      exact ⟨rfl, by simp [GameState.current_player]⟩
    · rw [if_neg hw] at hc
      simp only [GameState.advance_turn, if_neg hw]
      rw [if_neg (by omega : ¬ s.total_rounds < s.round)]
      exact ⟨rfl, by simp [GameState.current_player]⟩

end Yaht

namespace Yaht

/-- A successful `score_category` call implies all four validation
checks passed. -/
theorem score_category_ok_valid {s s' : GameState} {pid : Nat}
    {cat : Category} {v : Nat}
    (h : s.score_category pid cat = (.ok v, s')) :
    s.phase = .Playing ∧ s.is_current_player pid = true ∧
      ∃ t, s.turn = some t ∧ t.can_score = true := by
  unfold GameState.score_category at h
  split at h
  · simp at h
  · rename_i hphase
    split at h
    · simp at h
    · rename_i hcur
      split at h
      · simp at h
      · rename_i t hturn
        split at h
        · simp at h
        · rename_i hcan
          refine ⟨by simpa using hphase, by simpa using hcur, t, hturn,
            by simpa using hcan⟩

/-- Setting the current player then advancing the turn: full shape of
the resulting state. -/
theorem set_then_advance (s1 : GameState) (p : Player)
    (hidx1 : s1.current_player_index < s1.players.length) :
    ((s1.set_current_player p).advance_turn).players.length = s1.players.length
    ∧ (∀ i, i ≠ s1.current_player_index →
        ((s1.set_current_player p).advance_turn).players.getD i defaultPlayer =
          s1.players.getD i defaultPlayer)
    ∧ ((s1.set_current_player p).advance_turn).players.getD
        s1.current_player_index defaultPlayer = p
    ∧ ((s1.set_current_player p).advance_turn).current_player_index =
        (if s1.players.length ≤ s1.current_player_index + 1 then 0
         else s1.current_player_index + 1)
    ∧ ((s1.set_current_player p).advance_turn).round =
        (if s1.players.length ≤ s1.current_player_index + 1 then s1.round + 1
         else s1.round)
    ∧ ((s1.set_current_player p).advance_turn).total_rounds = s1.total_rounds
    ∧ (s1.total_rounds <
        (if s1.players.length ≤ s1.current_player_index + 1 then s1.round + 1
         else s1.round) →
        ((s1.set_current_player p).advance_turn).phase = .Finished ∧
          ((s1.set_current_player p).advance_turn).turn = none)
    ∧ ((if s1.players.length ≤ s1.current_player_index + 1 then s1.round + 1
         else s1.round) ≤ s1.total_rounds →
        ((s1.set_current_player p).advance_turn).phase = s1.phase ∧
          ((s1.set_current_player p).advance_turn).turn =
            some (TurnState.new
              (((s1.set_current_player p).advance_turn).players.getD
                ((s1.set_current_player p).advance_turn).current_player_index
                defaultPlayer).id)) := by
  obtain ⟨hp, hi, hr, ht, _, hl⟩ := set_current_player_frame s1 p
  obtain ⟨a1, a2, a3, a4, a5, a6⟩ := advance_turn_shape (s1.set_current_player p)
  rw [hi, hl] at a2
  rw [hi, hl, hr] at a3
  rw [hi, hl, hr, ht] at a5
  rw [hi, hl, hr, ht] at a6
  refine ⟨?_, ?_, ?_, a2, a3, a4.trans ht, a5, ?_⟩
  · rw [a1]
    exact hl
  · intro i hi2
    rw [a1]
    simp only [GameState.set_current_player]
    exact getD_set_ne _ _ _ _ _ (fun he => hi2 he.symm)
  · rw [a1]
    simp only [GameState.set_current_player]
    exact getD_set_self _ _ _ _ hidx1
  · intro hc
    obtain ⟨b1, b2⟩ := a6 hc
    exact ⟨b1.trans hp, b2⟩

/-- Full shape of a successful `score_category` call: the current
player's scorecard gains exactly one filled category, every other
player is untouched, the index advances with wraparound bumping the
round, the game finishes exactly when the new round exceeds
`total_rounds`, and otherwise the new current player gets a fresh
turn. -/
theorem score_category_ok_structure (s s' : GameState) (pid : Nat)
    (cat : Category) (v : Nat)
    (hidx : s.current_player_index < s.players.length)
    (h : s.score_category pid cat = (.ok v, s')) :
    s'.players.length = s.players.length
    ∧ (∀ i, i ≠ s.current_player_index →
        s'.players.getD i defaultPlayer = s.players.getD i defaultPlayer)
    ∧ (s'.players.getD s.current_player_index defaultPlayer).scorecard.numFilled
        = (s.players.getD s.current_player_index
            defaultPlayer).scorecard.numFilled + 1
    ∧ s'.current_player_index =
        (if s.players.length ≤ s.current_player_index + 1 then 0
         else s.current_player_index + 1)
    ∧ s'.round = (if s.players.length ≤ s.current_player_index + 1
        then s.round + 1 else s.round)
    ∧ s'.total_rounds = s.total_rounds
    ∧ (s.total_rounds <
        (if s.players.length ≤ s.current_player_index + 1 then s.round + 1
         else s.round) →
        s'.phase = .Finished ∧ s'.turn = none)
    ∧ ((if s.players.length ≤ s.current_player_index + 1 then s.round + 1
         else s.round) ≤ s.total_rounds →
        s'.phase = .Playing ∧
          s'.turn = some (TurnState.new
            (s'.players.getD s'.current_player_index defaultPlayer).id)) := by
  obtain ⟨hphase, hcur, t, hturn, hcan⟩ := score_category_ok_valid h
  rw [score_category_eq s pid cat t hphase hcur hturn hcan] at h
  by_cases hjk : ((compute_score .Yahtzee t.dice.values == 50) &&
      (s.current_player.scorecard.scores .Yahtzee == some 50)) = true
  · simp only [if_pos hjk] at h
    have hcp1 : (s.set_current_player (bonusPlayer s)).current_player =
        bonusPlayer s := by
      simp only [GameState.set_current_player, GameState.current_player]
      exact getD_set_self _ _ _ _ hidx
    simp only [hcp1] at h
    rcases hrec : (bonusPlayer s).scorecard.record cat
        (compute_score_joker cat t.dice.values
          ((compute_score .Yahtzee t.dice.values == 50) &&
            (s.current_player.scorecard.scores .Yahtzee == some 50)))
      with _ | sc'
    · rw [hrec] at h
      simp at h
    · rw [hrec] at h
      injection h with hv hs'
      obtain ⟨hnum, _, _⟩ := record_ok_numFilled _ _ _ _ hrec
      obtain ⟨hfp, hfi, hfr, hft, _, hfl⟩ :=
        set_current_player_frame s (bonusPlayer s)
      have hidx1 : (s.set_current_player (bonusPlayer s)).current_player_index <
          (s.set_current_player (bonusPlayer s)).players.length := by
        rw [hfi, hfl]
        exact hidx
      obtain ⟨c1, c2, c3, c4, c5, c6, c7, c8⟩ :=
        set_then_advance (s.set_current_player (bonusPlayer s))
          { bonusPlayer s with scorecard := sc' } hidx1
      rw [hfl] at c1
      rw [hfi] at c2
      rw [hfi] at c3
      rw [hfl, hfi] at c4
      rw [hfl, hfi, hfr] at c5
      rw [hft] at c6
      rw [hft, hfl, hfi, hfr] at c7
      rw [hft, hfl, hfi, hfr] at c8
      rw [← hs']
      refine ⟨c1, ?_, ?_, c4, c5, c6, c7, ?_⟩
      · intro i hi2
        rw [c2 i hi2]
        simp only [GameState.set_current_player]
        exact getD_set_ne _ _ _ _ _ (fun he => hi2 he.symm)
      · rw [c3]
        show sc'.numFilled = _
        rw [hnum]
        rfl
      · intro hc
        obtain ⟨d1, d2⟩ := c8 hc
        exact ⟨d1.trans (hfp.trans hphase), d2⟩
  · simp only [if_neg hjk] at h
    rcases hrec : s.current_player.scorecard.record cat
        (compute_score_joker cat t.dice.values
          ((compute_score .Yahtzee t.dice.values == 50) &&
            (s.current_player.scorecard.scores .Yahtzee == some 50)))
      with _ | sc'
    · rw [hrec] at h
      simp at h
    · rw [hrec] at h
      injection h with hv hs'
      obtain ⟨hnum, _, _⟩ := record_ok_numFilled _ _ _ _ hrec
      obtain ⟨c1, c2, c3, c4, c5, c6, c7, c8⟩ :=
        set_then_advance s { s.current_player with scorecard := sc' } hidx
      rw [← hs']
      refine ⟨c1, ?_, ?_, c4, c5, c6, c7, ?_⟩
      · intro i hi2
        exact c2 i hi2
      · rw [c3]
        show sc'.numFilled = _
        rw [hnum]
        rfl
      · intro hc
        obtain ⟨d1, d2⟩ := c8 hc
        exact ⟨d1.trans hphase, d2⟩

end Yaht

namespace Yaht

/-- `roll_dice` only ever replaces the turn contents: phase, players,
index, round and turn-presence are untouched, on success and on error. -/
theorem roll_dice_frame (s : GameState) (pid : Nat) (rng : Rng) :
    (s.roll_dice pid rng).2.1.phase = s.phase
    ∧ (s.roll_dice pid rng).2.1.players = s.players
    ∧ (s.roll_dice pid rng).2.1.current_player_index = s.current_player_index
    ∧ (s.roll_dice pid rng).2.1.round = s.round
    ∧ (s.roll_dice pid rng).2.1.total_rounds = s.total_rounds
    ∧ (s.roll_dice pid rng).2.1.turn.isSome = s.turn.isSome := by
  unfold GameState.roll_dice
  split
  · exact ⟨rfl, rfl, rfl, rfl, rfl, rfl⟩
  split
  · exact ⟨rfl, rfl, rfl, rfl, rfl, rfl⟩
  split
  · exact ⟨rfl, rfl, rfl, rfl, rfl, rfl⟩
  · rename_i t hturn
    rcases hr : t.roll rng with ⟨res, t2, rng2⟩
    simp [hr, hturn]

/-- `hold_dice` likewise only ever replaces the turn contents. -/
theorem hold_dice_frame (s : GameState) (pid : Nat) (held : HeldMask) :
    (s.hold_dice pid held).2.phase = s.phase
    ∧ (s.hold_dice pid held).2.players = s.players
    ∧ (s.hold_dice pid held).2.current_player_index = s.current_player_index
    ∧ (s.hold_dice pid held).2.round = s.round
    ∧ (s.hold_dice pid held).2.total_rounds = s.total_rounds
    ∧ (s.hold_dice pid held).2.turn.isSome = s.turn.isSome := by
  unfold GameState.hold_dice
  split
  · exact ⟨rfl, rfl, rfl, rfl, rfl, rfl⟩
  split
  · exact ⟨rfl, rfl, rfl, rfl, rfl, rfl⟩
  split
  · exact ⟨rfl, rfl, rfl, rfl, rfl, rfl⟩
  · rename_i t hturn
    rcases hr : t.hold held with ⟨res, t2⟩
    simp [hr, hturn]

/-- The invariant carried through a full game of `N` players after `k`
successful `score_category` calls: either the game is still Playing at
round `q + 1` with the expected scorecard fill pattern, or exactly
`13 * N` scores are in and the game is Finished with every scorecard
full. -/
def InvC4 (N k : Nat) (s : GameState) : Prop :=
  s.players.length = N ∧ s.total_rounds = 13 ∧
  ((∃ q, q ≤ 12 ∧ s.round = q + 1 ∧ s.current_player_index < N ∧
      k = N * q + s.current_player_index ∧
      s.phase = .Playing ∧ s.turn.isSome = true ∧
      (∀ i, i < N → (s.players.getD i defaultPlayer).scorecard.numFilled =
        q + (if i < s.current_player_index then 1 else 0)))
   ∨ (k = 13 * N ∧ s.phase = .Finished ∧ s.turn = none ∧
      (∀ i, i < N → (s.players.getD i defaultPlayer).scorecard.numFilled = 13)))

/-- One successful score preserves the invariant, advancing `k`. -/
theorem inv_score_step {N k : Nat} {s s' : GameState} {pid : Nat}
    {cat : Category} {v : Nat} (_hN : 1 ≤ N) (hinv : InvC4 N k s)
    (h : s.score_category pid cat = (.ok v, s')) : InvC4 N (k + 1) s' := by
  obtain ⟨hlen, htot, hbr⟩ := hinv
  rcases hbr with ⟨q, hq, hround, hidxN, hk, hph, _, hfill⟩ | ⟨_, hph, _, _⟩
  · have hidx : s.current_player_index < s.players.length := by
      rw [hlen]; exact hidxN
    obtain ⟨s1, s2, s3, s4, s5, s6, s7, s8⟩ :=
      score_category_ok_structure s s' pid cat v hidx h
    by_cases hw : s.players.length ≤ s.current_player_index + 1
    · -- wrap: the current player was the last of the round
      have hiN : s.current_player_index + 1 = N := by omega
      by_cases hq12 : q = 12
      · -- final round completed: the game finishes
        subst hq12
        obtain ⟨f1, f2⟩ := s7 (by rw [if_pos hw, hround, htot]; omega)
        refine ⟨by rw [s1, hlen], by rw [s6, htot], Or.inr ⟨?_, f1, f2, ?_⟩⟩
        · rw [hk, hround] at *
          have : N * 12 + s.current_player_index + 1 = N * 13 := by
            rw [← hiN]; ring
          rw [this]; ring
        · intro i hi
          by_cases hic : i = s.current_player_index
          · rw [hic, s3, hfill _ hidxN]
            simp
          · rw [s2 i hic, hfill i hi]
            have : i < s.current_player_index := by omega
            simp [this]
      · -- wrap into the next round
        obtain ⟨f1, f2⟩ := s8 (by rw [if_pos hw, hround, htot]; omega)
        refine ⟨by rw [s1, hlen], by rw [s6, htot],
          Or.inl ⟨q + 1, by omega, ?_, ?_, ?_, f1, by rw [f2]; rfl, ?_⟩⟩
        · rw [s5, if_pos hw, hround]
        · rw [s4, if_pos hw]; omega
        · rw [s4, if_pos hw, hk]
          have : N * q + s.current_player_index + 1 = N * (q + 1) := by
            rw [← hiN]; ring
          rw [this]
          simp
        · intro i hi
          rw [s4, if_pos hw]
          simp only [Nat.not_lt_zero, if_false]
          by_cases hic : i = s.current_player_index
          · rw [hic, s3, hfill _ hidxN]
            simp
          · rw [s2 i hic, hfill i hi]
            have : i < s.current_player_index := by omega
            simp [this]
    · -- no wrap: next player in the same round
      obtain ⟨f1, f2⟩ := s8 (by rw [if_neg hw, hround, htot]; omega)
      refine ⟨by rw [s1, hlen], by rw [s6, htot],
        Or.inl ⟨q, hq, ?_, ?_, ?_, f1, by rw [f2]; rfl, ?_⟩⟩
      · rw [s5, if_neg hw, hround]
      · rw [s4, if_neg hw]; omega
      · rw [s4, if_neg hw, hk]; ring
      · intro i hi
        rw [s4, if_neg hw]
        by_cases hic : i = s.current_player_index
        · rw [hic, s3, hfill _ hidxN]
          simp
        · rw [s2 i hic, hfill i hi]
          by_cases hlt : i < s.current_player_index
          · simp [hlt, Nat.lt_succ_of_lt hlt]
          · have h1 : ¬ i < s.current_player_index + 1 := by omega
            simp [hlt, h1]
  · -- Finished: a successful score is impossible
    exact absurd ((score_category_ok_valid h).1) (by rw [hph]; simp)

/-- Rolls preserve the invariant without consuming a score. -/
theorem inv_roll_step {N k : Nat} {s s' : GameState} {pid : Nat} {rng : Rng}
    {res : Except GameError Unit} {rng' : Rng}
    (hinv : InvC4 N k s) (h : s.roll_dice pid rng = (res, s', rng')) :
    InvC4 N k s' := by
  obtain ⟨f1, f2, f3, f4, f5, f6⟩ := roll_dice_frame s pid rng
  rw [h] at f1 f2 f3 f4 f5 f6
  obtain ⟨hlen, htot, hbr⟩ := hinv
  refine ⟨by rw [f2, hlen], by rw [f5, htot], ?_⟩
  rcases hbr with ⟨q, hq, hround, hidxN, hk, hph, hts, hfill⟩ | ⟨hk, hph, hturn, hfill⟩
  · exact Or.inl ⟨q, hq, by rw [f4, hround], by rw [f3]; exact hidxN,
      by rw [f3, hk], by rw [f1, hph], by rw [f6, hts],
      by intro i hi; rw [f2, f3]; exact hfill i hi⟩
  · refine Or.inr ⟨hk, by rw [f1, hph], ?_, by intro i hi; rw [f2]; exact hfill i hi⟩
    rw [hturn] at f6
    simpa using f6
  
/-- Holds preserve the invariant without consuming a score. -/
theorem inv_hold_step {N k : Nat} {s s' : GameState} {pid : Nat}
    {held : HeldMask} {res : Except GameError Unit}
    (hinv : InvC4 N k s) (h : s.hold_dice pid held = (res, s')) :
    InvC4 N k s' := by
  obtain ⟨f1, f2, f3, f4, f5, f6⟩ := hold_dice_frame s pid held
  rw [h] at f1 f2 f3 f4 f5 f6
  obtain ⟨hlen, htot, hbr⟩ := hinv
  refine ⟨by rw [f2, hlen], by rw [f5, htot], ?_⟩
  rcases hbr with ⟨q, hq, hround, hidxN, hk, hph, hts, hfill⟩ | ⟨hk, hph, hturn, hfill⟩
  · exact Or.inl ⟨q, hq, by rw [f4, hround], by rw [f3]; exact hidxN,
      by rw [f3, hk], by rw [f1, hph], by rw [f6, hts],
      by intro i hi; rw [f2, f3]; exact hfill i hi⟩
  · refine Or.inr ⟨hk, by rw [f1, hph], ?_, by intro i hi; rw [f2]; exact hfill i hi⟩
    rw [hturn] at f6
    simpa using f6

end Yaht

namespace Yaht

/-- A run of the game API: any number of `roll_dice`/`hold_dice` calls
(with any outcome) interleaved with successful `score_category` calls;
the index counts the successful scores. -/
inductive Trace : GameState → Nat → GameState → Prop where
  | refl (s : GameState) : Trace s 0 s
  | score {s s' s'' : GameState} {pid : Nat} {cat : Category} {v k : Nat} :
      s.score_category pid cat = (.ok v, s') → Trace s' k s'' →
      Trace s (k + 1) s''
  | roll {s s' s'' : GameState} {pid : Nat} {rng rng' : Rng}
      {res : Except GameError Unit} {k : Nat} :
      s.roll_dice pid rng = (res, s', rng') → Trace s' k s'' → Trace s k s''
  | hold {s s' s'' : GameState} {pid : Nat} {held : HeldMask}
      {res : Except GameError Unit} {k : Nat} :
      s.hold_dice pid held = (res, s') → Trace s' k s'' → Trace s k s''

/-- Pushing the invariant through a trace that completes the game. -/
theorem trace_preserves_inv {s : GameState} {k : Nat} {s'' : GameState}
    (tr : Trace s k s'') :
    ∀ N j, 1 ≤ N → InvC4 N j s → j + k = 13 * N → InvC4 N (13 * N) s'' := by
  induction tr with
  | refl s =>
    intro N j _ hinv hj
    have hj' : j = 13 * N := by omega
    rwa [hj'] at hinv
  | score hstep _ ih =>
    intro N j hN hinv hj
    exact ih N (j + 1) hN (inv_score_step hN hinv hstep) (by omega)
  | roll hstep _ ih =>
    intro N j hN hinv hj
    exact ih N j hN (inv_roll_step hinv hstep) hj
  | hold hstep _ ih =>
    intro N j hN hinv hj
    exact ih N j hN (inv_hold_step hinv hstep) hj

/-- The state after a successful `start` on a fresh game satisfies the
invariant with zero scores in. -/
theorem inv_after_start (ps : List Player) (N : Nat) (s1 : GameState)
    (hlen : ps.length = N) (h2 : 2 ≤ ps.length) (h6 : ps.length ≤ 6)
    (hfresh : ∀ p ∈ ps, p.scorecard = Scorecard.new)
    (hstart : (GameState.new ps).start = (.ok (), s1)) :
    InvC4 N 0 s1 := by
  have hmem : ∀ i, i < ps.length → ps.getD i defaultPlayer ∈ ps := by
    intro i hi
    rw [List.getD_eq_getElem?_getD, List.getElem?_eq_getElem hi]
    exact List.getElem_mem hi
  have hs : (GameState.new ps).start =
      (.ok (), ⟨.Playing, ps, 0,
        some (TurnState.new ((ps.getD 0 defaultPlayer).id)), 1, 13⟩) := by
    unfold GameState.start GameState.new
    rw [if_neg (by simpa using (by omega : ¬ ps.length < 2)),
      if_neg (by simpa using (by omega : ¬ 6 < ps.length))]
    rfl
  rw [hs] at hstart
  injection hstart with _ hs1
  subst hs1
  refine ⟨hlen, rfl, Or.inl ⟨0, by omega, rfl, by show 0 < N; omega,
    by show 0 = N * 0 + 0; simp, rfl, rfl, ?_⟩⟩
  intro i hi
  have hfr := hfresh _ (hmem i (by omega))
  simp only [hfr]
  simp [numFilled_new]

/-- The `max_by_key` fold over a nonempty list always produces a value. -/
theorem foldl_winnerStep_isSome (ps : List Player) (m : Player) :
    (ps.foldl winnerStep (some m)).isSome = true := by
  obtain ⟨w, _, _, hw, _⟩ := winnerStep_fold_lastmax ps m
  rw [hw]
  rfl

/-- In a Finished game with at least one player, `winner` is defined. -/
theorem winner_isSome_of_finished (s : GameState) (hph : s.phase = .Finished)
    (hne : s.players ≠ []) : s.winner.isSome = true := by
  unfold GameState.winner
  rw [if_neg (by simp [hph])]
  cases hps : s.players with
  | nil => exact absurd hps hne
  | cons x xs =>
    rw [List.foldl_cons]
    have hx : winnerStep none x = some x := rfl
    rw [hx]
    exact foldl_winnerStep_isSome xs x

/-- Claim C4: a game started with N players (2 ≤ N ≤ 6, fresh
scorecards) that runs through 13 × N successful `score_category` calls
— with any interleaved `roll_dice` / `hold_dice` calls — ends Finished
with no TurnState, all scorecards complete, and a defined winner;
moreover every successful `score_category` call advances the player
index with wraparound, bumps the round exactly on wrap, and creates a
fresh TurnState for the new current player whenever the game is not
over (the TurnState is dropped when it is). -/
theorem full_game_reaches_finished (N : Nat) (ps : List Player)
    (s1 sF : GameState) (hN2 : 2 ≤ N) (hN6 : N ≤ 6) (hlen : ps.length = N)
    (hfresh : ∀ p ∈ ps, p.scorecard = Scorecard.new)
    (hstart : (GameState.new ps).start = (.ok (), s1))
    (htrace : Trace s1 (13 * N) sF) :
    sF.phase = .Finished
    ∧ sF.turn = none
    ∧ (∀ p ∈ sF.players, p.scorecard.is_complete = true)
    ∧ sF.winner.isSome = true
    ∧ (∀ (s s' : GameState) (pid2 : Nat) (cat : Category) (v : Nat),
        s.current_player_index < s.players.length →
        s.score_category pid2 cat = (.ok v, s') →
        s'.current_player_index =
          (if s.players.length ≤ s.current_player_index + 1 then 0
           else s.current_player_index + 1)
        ∧ s'.round = (if s.players.length ≤ s.current_player_index + 1
            then s.round + 1 else s.round)
        ∧ (s'.phase = .Playing →
            s'.turn = some (TurnState.new
              (s'.players.getD s'.current_player_index defaultPlayer).id))
        ∧ (s'.phase = .Finished → s'.turn = none)) := by
  have hinv0 := inv_after_start ps N s1 hlen (by omega) (by omega) hfresh hstart
  have hinvF := trace_preserves_inv htrace N 0 (by omega) hinv0 (by omega)
  obtain ⟨hlenF, htotF, hbr⟩ := hinvF
  rcases hbr with ⟨q, hq, _, hidxN, hk, _, _, _⟩ | ⟨_, hph, hturn, hfill⟩
  · exfalso
    have hlt : N * q + sF.current_player_index < N * 13 := by
      calc N * q + sF.current_player_index < N * q + N := by omega
        _ = N * (q + 1) := by ring
        _ ≤ N * 13 := Nat.mul_le_mul_left N (by omega)
    rw [← hk] at hlt
    rw [Nat.mul_comm] at hlt
    exact Nat.lt_irrefl _ hlt
  · have hne : sF.players ≠ [] := by
      intro hnil
      rw [hnil] at hlenF
      simp at hlenF
      omega
    refine ⟨hph, hturn, ?_, winner_isSome_of_finished sF hph hne, ?_⟩
    · intro p hp
      obtain ⟨i, hi, hgd⟩ := List.mem_iff_getElem.mp hp
      have hgd' : sF.players.getD i defaultPlayer = p := by
        rw [List.getD_eq_getElem?_getD, List.getElem?_eq_getElem hi]
        simpa using hgd
      have hfi := hfill i (by rw [← hlenF]; exact hi)
      have hcomp : (sF.players.getD i defaultPlayer).scorecard.is_complete
          = true := by
        unfold Scorecard.is_complete
        rw [hfi]
        rfl
      rw [← hgd']
      exact hcomp
    · intro s s' pid2 cat v hidx2 hcall
      obtain ⟨_, _, _, t4, t5, _, t7, t8⟩ :=
        score_category_ok_structure s s' pid2 cat v hidx2 hcall
      refine ⟨t4, t5, ?_, ?_⟩
      · intro hphase'
        by_cases hc : s.total_rounds <
            (if s.players.length ≤ s.current_player_index + 1 then s.round + 1
             else s.round)
        · obtain ⟨e1, _⟩ := t7 hc
          rw [hphase'] at e1
          cases e1
        · exact (t8 (by omega)).2
      · intro hphase'
        by_cases hc : s.total_rounds <
            (if s.players.length ≤ s.current_player_index + 1 then s.round + 1
             else s.round)
        · exact (t7 hc).2
        · obtain ⟨e1, _⟩ := t8 (by omega)
          rw [hphase'] at e1
          cases e1

end Yaht

namespace Yaht

/-- Whether a `Result` is `Ok`. -/
def exceptOk {ε α : Type} : Except ε α → Bool
  | .ok _ => true
  | .error _ => false

/-- A scripted client action: roll the dice or score a category, always
acting as the current player. -/
inductive Move where
  | roll
  | score (cat : Category)

/-- Run a script of moves against the game API, reporting the final
state and whether every call succeeded. -/
def runMoves : GameState → Rng → List Move → GameState × Rng × Bool
  | s, _rng, [] => (s, _rng, true)
  | s, rng, .roll :: ms =>
    let r := s.roll_dice s.current_player.id rng
    let rest := runMoves r.2.1 r.2.2 ms
    (rest.1, rest.2.1, exceptOk r.1 && rest.2.2)
  | s, rng, .score cat :: ms =>
    let r := s.score_category s.current_player.id cat
    let rest := runMoves r.2 rng ms
    (rest.1, rest.2.1, exceptOk r.1 && rest.2.2)

/-- Number of score moves in a script. -/
def scoreCount : List Move → Nat
  | [] => 0
  | .roll :: ms => scoreCount ms
  | .score _ :: ms => scoreCount ms + 1

/-- A fully successful scripted run is a `Trace` with as many score
steps as the script holds. -/
theorem runMoves_trace : ∀ (ms : List Move) (s : GameState) (rng : Rng),
    (runMoves s rng ms).2.2 = true →
    Trace s (scoreCount ms) (runMoves s rng ms).1 := by
  intro ms
  induction ms with
  | nil =>
    intro s rng _
    exact Trace.refl s
  | cons m ms ih =>
    intro s rng hok
    cases m with
    | roll =>
      simp only [runMoves, scoreCount] at hok ⊢
      rw [Bool.and_eq_true] at hok
      exact Trace.roll rfl (ih _ _ hok.2)
    | score cat =>
      simp only [runMoves, scoreCount] at hok ⊢
      rw [Bool.and_eq_true] at hok
      obtain ⟨hok1, hok2⟩ := hok
      rcases hr : s.score_category s.current_player.id cat with ⟨res, s2⟩
      cases res with
      | error e =>
        rw [hr] at hok1
        simp [exceptOk] at hok1
      | ok v =>
        rw [hr] at hok2
        exact Trace.score hr (ih _ _ hok2)

/-- Two players with fresh scorecards. -/
def wPlayers : List Player := [Player.new 1 "a", Player.new 2 "b"]

/-- A deterministic rng stream: every die comes up 1. -/
def wRng : Rng := ⟨fun _ => 0, 0⟩

/-- The state right after starting the two-player game. -/
def wStart : GameState := ((GameState.new wPlayers).start).2

/-- The scripted full game: in round r both players roll once and score
the r-th category of `Category::ALL`. -/
def wMoves : List Move :=
  (Category.ALL.map
    (fun c => [Move.roll, Move.score c, Move.roll, Move.score c])).flatten

/-- Concrete instantiation of the C4 theorem: the scripted two-player
game ends Finished with a defined winner. -/
theorem full_game_reaches_finished_witness :
    (runMoves wStart wRng wMoves).1.phase = .Finished ∧
      (runMoves wStart wRng wMoves).1.winner.isSome = true := by
  have hfresh : ∀ p ∈ wPlayers, p.scorecard = Scorecard.new := by
    intro p hp
    rcases List.mem_cons.mp hp with rfl | hp
    · rfl
    rcases List.mem_cons.mp hp with rfl | hp
    · rfl
    · simp at hp
  have hok : (runMoves wStart wRng wMoves).2.2 = true := by decide
  have htr : Trace wStart (13 * 2) (runMoves wStart wRng wMoves).1 :=
    runMoves_trace wMoves wStart wRng hok
  have h := full_game_reaches_finished 2 wPlayers wStart
    ((runMoves wStart wRng wMoves).1) (by omega) (by omega) rfl hfresh rfl htr
  exact ⟨h.1, h.2.2.2.1⟩

end Yaht
